import Mathlib

/-!
Shallow embedding of the `nestjs-secret-manager` secret resolution pipeline:
the TTL-aware `SecretCache`, the in-memory backend, the secret registry
with its derived injection tokens, and the resolver service
(`SecretManagerService`) with cache-then-backend lookup and startup
validation.

JavaScript `Map` objects are modelled as association lists over `String`
keys that preserve insertion order; `Map.set` on an existing key updates
the entry in place.  Timestamps (`Date.now()`) are explicit `Int`
parameters.  Fallible asynchronous methods are modelled as functions into
`Except SecretError`.
-/

namespace SecretManager

/-- Lookup in a JS-`Map`-like association list (`Map.get`). -/
def mapGet {α : Type} : List (String × α) → String → Option α
  | [], _ => none
  | (k, v) :: rest, key => if k = key then some v else mapGet rest key

/-- `Map.set`: update the entry in place if the key is present, otherwise
append a fresh entry at the end (JS insertion-order semantics). -/
def mapSet {α : Type} : List (String × α) → String → α → List (String × α)
  | [], key, v => [(key, v)]
  | (k, w) :: rest, key, v =>
      if k = key then (key, v) :: rest else (k, w) :: mapSet rest key v

/-- `Map.delete`: remove the entry for the key, reporting whether one existed. -/
def mapDelete {α : Type} : List (String × α) → String → List (String × α)
  | [], _ => []
  | (k, w) :: rest, key => if k = key then rest else (k, w) :: mapDelete rest key

/-- `Map.has`. -/
def mapHas {α : Type} (m : List (String × α)) (key : String) : Bool :=
  (mapGet m key).isSome

/-- A single-quote character as a string, used in error messages. -/
def apos : String := ⟨[Char.ofNat 39]⟩

/-- Errors surfaced by the secret manager.  `SecretNotFoundError` and
`SecretAccessDeniedError` are the typed error classes; `jsError` is a plain
JavaScript `Error` carrying only a message (used for the unknown-backend
error and the aggregate validation error). -/
inductive SecretError where
  | secretNotFound (secretName : String) (backend : String) (version : Option String)
  | accessDenied (secretName : String) (backend : String) (reason : Option String)
  | jsError (msg : String)
  | grpcRaw (code : Option Int) (msg : Option String)
deriving DecidableEq, Repr

/-- The `message` property of each error, mirroring the constructors of
`SecretNotFoundError` and `SecretAccessDeniedError` (note the JS falsiness
check: an empty `version` or `reason` string produces no suffix). -/
def SecretError.message : SecretError → String
  | .secretNotFound n b v =>
      let versionInfo := match v with
        | some ver => if ver = "" then "" else " (version: " ++ ver ++ ")"
        | none => ""
      "Secret " ++ apos ++ n ++ apos ++ " not found in backend " ++
        apos ++ b ++ apos ++ versionInfo
  | .accessDenied n b r =>
      let reasonInfo := match r with
        | some reason => if reason = "" then "" else ": " ++ reason
        | none => ""
      "Access denied to secret " ++ apos ++ n ++ apos ++ " in backend " ++
        apos ++ b ++ apos ++ reasonInfo
  | .jsError m => m
  | .grpcRaw _ m => m.getD ""

/-- A cache entry: the value and the timestamp at which it was stored. -/
structure CacheEntry where
  value : String
  cachedAt : Int
deriving DecidableEq, Repr

/-- `SecretCache`: TTL-aware in-memory cache keyed by `backend:name:version`. -/
structure SecretCache where
  ttlMs : Option Int
  entries : List (String × CacheEntry)
deriving DecidableEq, Repr

/-- `getCacheKey`: composite key `backend:name:(version ?? "latest")`. -/
def getCacheKey (backend name : String) (version : Option String) : String :=
  backend ++ ":" ++ name ++ ":" ++ version.getD "latest"

/-- `SecretCache.get`: return the cached value unless missing or expired.
An entry is expired when a TTL is configured and `now - cachedAt > ttlMs`;
an expired entry is deleted as a side effect, so the (possibly mutated)
cache is returned alongside the result. -/
def SecretCache.get (c : SecretCache) (now : Int) (backend name : String)
    (version : Option String) : Option String × SecretCache :=
  let key := getCacheKey backend name version
  match mapGet c.entries key with
  | none => (none, c)
  | some entry =>
      match c.ttlMs with
      | some ttl =>
          if now - entry.cachedAt > ttl then
            (none, { c with entries := mapDelete c.entries key })
          else
            (some entry.value, c)
      | none => (some entry.value, c)

/-- `SecretCache.set`: store the value under the composite key with the
current timestamp, overwriting any existing entry. -/
def SecretCache.set (c : SecretCache) (now : Int) (backend name value : String)
    (version : Option String) : SecretCache :=
  { c with entries := mapSet c.entries (getCacheKey backend name version) ⟨value, now⟩ }

/-- `SecretCache.delete`: remove one entry, reporting whether it existed. -/
def SecretCache.delete (c : SecretCache) (backend name : String)
    (version : Option String) : Bool × SecretCache :=
  let key := getCacheKey backend name version
  (mapHas c.entries key, { c with entries := mapDelete c.entries key })

/-- `SecretCache.clear`: remove all entries. -/
def SecretCache.clear (c : SecretCache) : SecretCache :=
  { c with entries := [] }

/-- `SecretCache.size`. -/
def SecretCache.size (c : SecretCache) : Nat := c.entries.length

/-- The in-memory backend store: secret name → (version → value). -/
structure InMemorySecretBackend where
  secrets : List (String × List (String × String))
deriving DecidableEq, Repr

/-- The backend identifier, `readonly name = 'memory'`. -/
def InMemorySecretBackend.name (_ : InMemorySecretBackend) : String := "memory"

/-- `InMemorySecretBackend.set`: store a value under a version (defaulting
to `"latest"`), creating the per-name version map if absent. -/
def InMemorySecretBackend.set (b : InMemorySecretBackend)
    (name value : String) (version : String := "latest") : InMemorySecretBackend :=
  match mapGet b.secrets name with
  | none => ⟨mapSet b.secrets name [(version, value)]⟩
  | some versions => ⟨mapSet b.secrets name (mapSet versions version value)⟩

/-- The constructor: preload each `(name, value)` pair via `set` (stored
under version `"latest"`). -/
def InMemorySecretBackend.init (initialSecrets : Option (List (String × String))) :
    InMemorySecretBackend :=
  match initialSecrets with
  | none => ⟨[]⟩
  | some pairs =>
      pairs.foldl (fun b p => b.set p.1 p.2) (⟨[]⟩ : InMemorySecretBackend)

/-- `InMemorySecretBackend.get`: fail `SecretNotFoundError` when the name is
absent or the requested version (`"latest"` when omitted) is absent under
that name; otherwise return the stored value. -/
def InMemorySecretBackend.get (b : InMemorySecretBackend)
    (name : String) (version : Option String) : Except SecretError String :=
  match mapGet b.secrets name with
  | none => .error (.secretNotFound name "memory" version)
  | some secretVersions =>
      let versionId := version.getD "latest"
      match mapGet secretVersions versionId with
      | none => .error (.secretNotFound name "memory" version)
      | some value => .ok value

/-- `InMemorySecretBackend.getLatest`, defined as `get(name, 'latest')`. -/
def InMemorySecretBackend.getLatest (b : InMemorySecretBackend)
    (name : String) : Except SecretError String :=
  b.get name (some "latest")

/-- `InMemorySecretBackend.has`. -/
def InMemorySecretBackend.has (b : InMemorySecretBackend)
    (name : String) (version : String := "latest") : Bool :=
  match mapGet b.secrets name with
  | none => false
  | some secretVersions => mapHas secretVersions version

/-- `InMemorySecretBackend.delete`: delete one version (or all versions when
the version is omitted); a name whose last version is deleted is removed
entirely. -/
def InMemorySecretBackend.delete (b : InMemorySecretBackend)
    (name : String) (version : Option String) : Bool × InMemorySecretBackend :=
  match version with
  | none => (mapHas b.secrets name, ⟨mapDelete b.secrets name⟩)
  | some v =>
      match mapGet b.secrets name with
      | none => (false, b)
      | some secretVersions =>
          let deleted := mapHas secretVersions v
          let remaining := mapDelete secretVersions v
          if remaining.length = 0 then
            (deleted, ⟨mapDelete b.secrets name⟩)
          else
            (deleted, ⟨mapSet b.secrets name remaining⟩)

/-- `InMemorySecretBackend.clear`. -/
def InMemorySecretBackend.clear (_ : InMemorySecretBackend) : InMemorySecretBackend :=
  ⟨[]⟩

/-- `InMemorySecretBackend.size`. -/
def InMemorySecretBackend.size (b : InMemorySecretBackend) : Nat :=
  b.secrets.length

/-- An error raised by the GCP client, carrying a gRPC status code and a
message (either may be missing on an arbitrary thrown value). -/
structure GrpcError where
  code : Option Int
  msg : Option String
deriving DecidableEq, Repr

/-- `GcpSecretManagerBackend.get`, with the network client abstracted as a
function from the secret path to either a payload (`none` when the response
carries no data) or a thrown gRPC error.  Code 5 maps to
`SecretNotFoundError`, code 7 to `SecretAccessDeniedError`, anything else
is re-thrown; a missing or empty (falsy) payload is `SecretNotFoundError`. -/
def GcpSecretManagerBackend.get (projectId : String)
    (client : String → Except GrpcError (Option String))
    (name : String) (version : Option String) : Except SecretError String :=
  let versionId := version.getD "latest"
  let secretPath :=
    "projects/" ++ projectId ++ "/secrets/" ++ name ++ "/versions/" ++ versionId
  match client secretPath with
  | .error grpcError =>
      if grpcError.code = some 5 then
        .error (.secretNotFound name "gcp" version)
      else if grpcError.code = some 7 then
        .error (.accessDenied name "gcp" grpcError.msg)
      else
        .error (.grpcRaw grpcError.code grpcError.msg)
  | .ok payload =>
      match payload with
      | none => .error (.secretNotFound name "gcp" version)
      | some data =>
          if data = "" then .error (.secretNotFound name "gcp" version)
          else .ok data

/-- `GcpSecretManagerBackend.getLatest`, defined as `get(name, 'latest')`. -/
def GcpSecretManagerBackend.getLatest (projectId : String)
    (client : String → Except GrpcError (Option String))
    (name : String) : Except SecretError String :=
  GcpSecretManagerBackend.get projectId client name (some "latest")

/-- Options accepted by the `@InjectSecret` decorator. -/
structure InjectSecretOptions where
  version : Option String
  backend : Option String
deriving DecidableEq, Repr

/-- `getSecretToken`: the derived injection token
`SECRET_{backend ?? "default"}_{name}_{version ?? "latest"}`. -/
def getSecretToken (name : String) (options : Option InjectSecretOptions) : String :=
  let backend := (options.bind InjectSecretOptions.backend).getD "default"
  let version := (options.bind InjectSecretOptions.version).getD "latest"
  "SECRET_" ++ backend ++ "_" ++ name ++ "_" ++ version

/-- A registered secret requirement. -/
structure SecretRequirement where
  name : String
  version : Option String
  backend : Option String
  token : String
deriving DecidableEq, Repr

/-- The registry of secret requirements, keyed by token. -/
structure SecretRegistry where
  secrets : List (String × SecretRequirement)
deriving DecidableEq, Repr

/-- `SecretRegistry.register`: derive the token, store or overwrite the
requirement under it, and return the requirement. -/
def SecretRegistry.register (reg : SecretRegistry) (name : String)
    (options : Option InjectSecretOptions) : SecretRequirement × SecretRegistry :=
  let token := getSecretToken name options
  let requirement : SecretRequirement :=
    ⟨name, options.bind InjectSecretOptions.version,
      options.bind InjectSecretOptions.backend, token⟩
  (requirement, ⟨mapSet reg.secrets token requirement⟩)

/-- `SecretRegistry.getAll`: snapshot of all registered requirements. -/
def SecretRegistry.getAll (reg : SecretRegistry) : List SecretRequirement :=
  reg.secrets.map Prod.snd

/-- `SecretRegistry.clear`. -/
def SecretRegistry.clear (_ : SecretRegistry) : SecretRegistry := ⟨[]⟩

/-- `SecretRegistry.size`. -/
def SecretRegistry.size (reg : SecretRegistry) : Nat := reg.secrets.length

/-- A backend as the resolver sees it: a stable `name` and a fallible
`get(name, version?)`.  (The resolver never calls a backend's `getLatest`.) -/
structure Backend where
  name : String
  get : String → Option String → Except SecretError String

/-- `SecretManagerModuleOptions`. -/
structure SecretManagerModuleOptions where
  defaultBackend : String
  cacheEnabled : Option Bool
  cacheTTL : Option Int
  validateOnStartup : Option Bool
  gcpProjectId : Option String
  inMemorySecrets : Option (List (String × String))
  debug : Option Bool

/-- The check `options.cacheEnabled !== false` (unset counts as enabled). -/
def cacheEnabledOn (o : SecretManagerModuleOptions) : Bool :=
  match o.cacheEnabled with
  | some false => false
  | _ => true

/-- The check `options.validateOnStartup !== false` (unset counts as on). -/
def validateOnStartupOn (o : SecretManagerModuleOptions) : Bool :=
  match o.validateOnStartup with
  | some false => false
  | _ => true

/-- The mutable state of a `SecretManagerService` instance: its options,
its backend table, and its cache. -/
structure ServiceState where
  options : SecretManagerModuleOptions
  backends : List (String × Backend)
  cache : SecretCache

/-- Wrap an in-memory backend store as a resolver `Backend`. -/
def memoryAsBackend (b : InMemorySecretBackend) : Backend :=
  ⟨"memory", fun n v => b.get n v⟩

/-- Wrap the GCP backend as a resolver `Backend`. -/
def gcpAsBackend (projectId : String)
    (client : String → Except GrpcError (Option String)) : Backend :=
  ⟨"gcp", fun n v => GcpSecretManagerBackend.get projectId client n v⟩

/-- `initializeBackends`: a `gcp` entry iff `gcpProjectId` is supplied (and
truthy), and always a `memory` entry preloaded from `inMemorySecrets`. -/
def initializeBackends (o : SecretManagerModuleOptions)
    (client : String → Except GrpcError (Option String)) : List (String × Backend) :=
  let withGcp : List (String × Backend) :=
    match o.gcpProjectId with
    | some p => if p = "" then [] else mapSet [] "gcp" (gcpAsBackend p client)
    | none => []
  mapSet withGcp "memory" (memoryAsBackend (InMemorySecretBackend.init o.inMemorySecrets))

/-- The service constructor: the cache TTL is applied only when caching is
enabled, and the backend table is initialized from the options. -/
def SecretManagerService.create (o : SecretManagerModuleOptions)
    (client : String → Except GrpcError (Option String)) : ServiceState :=
  { options := o
    backends := initializeBackends o client
    cache := ⟨if cacheEnabledOn o then o.cacheTTL else none, []⟩ }

/-- `getBackend`: resolve the explicit backend name (or the configured
default), failing with the unknown-backend error that lists the registered
backend names. -/
def SecretManagerService.getBackend (s : ServiceState) (name : Option String) :
    Except SecretError Backend :=
  let backendName := name.getD s.options.defaultBackend
  match mapGet s.backends backendName with
  | some backend => .ok backend
  | none =>
      .error (.jsError ("Unknown secret backend: " ++ apos ++ backendName ++ apos ++
        ". Available backends: " ++ String.intercalate ", " (s.backends.map Prod.fst)))

/-- `getInternal`: cache-first lookup (skipped when caching is disabled),
then backend fetch, then cache store (skipped when caching is disabled).
The cache read may lazily delete an expired entry, so the state is threaded
through. -/
def SecretManagerService.getInternal (s : ServiceState) (now : Int)
    (name version : String) (backend : Backend) :
    Except SecretError String × ServiceState :=
  let (cached, cacheAfterRead) :=
    if cacheEnabledOn s.options then
      s.cache.get now backend.name name (some version)
    else
      (none, s.cache)
  match cached with
  | some value => (.ok value, { s with cache := cacheAfterRead })
  | none =>
      match backend.get name (some version) with
      | .error e => (.error e, { s with cache := cacheAfterRead })
      | .ok value =>
          let cacheAfterWrite :=
            if cacheEnabledOn s.options then
              cacheAfterRead.set now backend.name name value (some version)
            else
              cacheAfterRead
          (.ok value, { s with cache := cacheAfterWrite })

/-- `SecretManagerService.get`: resolve the backend, normalize the version
to `"latest"`, and run the internal cache-then-backend lookup.  (The
tracing span has no effect on control flow and is omitted.) -/
def SecretManagerService.get (s : ServiceState) (now : Int) (name : String)
    (version backendName : Option String) :
    Except SecretError String × ServiceState :=
  match SecretManagerService.getBackend s backendName with
  | .error e => (.error e, s)
  | .ok backend =>
      let resolvedVersion := version.getD "latest"
      SecretManagerService.getInternal s now name resolvedVersion backend

/-- `SecretManagerService.getLatest`, defined as
`get(name, 'latest', backendName)`. -/
def SecretManagerService.getLatest (s : ServiceState) (now : Int) (name : String)
    (backendName : Option String) : Except SecretError String × ServiceState :=
  SecretManagerService.get s now name (some "latest") backendName

/-- `clearCache`: delegate to the cache's clear. -/
def SecretManagerService.clearCache (s : ServiceState) : ServiceState :=
  { s with cache := s.cache.clear }

/-- `registerBackend`: insert or overwrite `backends[backend.name]`. -/
def SecretManagerService.registerBackend (s : ServiceState) (b : Backend) :
    ServiceState :=
  { s with backends := mapSet s.backends b.name b }

/-- The validation loop body: attempt `get` for every registered
requirement in order, threading the service state, and collect every
failure without aborting early. -/
def collectValidationErrors (now : Int) :
    ServiceState → List SecretRequirement → List SecretError × ServiceState
  | s, [] => ([], s)
  | s, secret :: rest =>
      match SecretManagerService.get s now secret.name secret.version secret.backend with
      | (.ok _, s₁) => collectValidationErrors now s₁ rest
      | (.error e, s₁) =>
          let (errors, s₂) := collectValidationErrors now s₁ rest
          (e :: errors, s₂)

/-- The message of the aggregate validation error: the failure count and
each failure's message on its own ` - `-prefixed line. -/
def aggregateMessage (errors : List SecretError) : String :=
  "Failed to validate " ++ toString errors.length ++ " secret(s):\n" ++
    String.intercalate "\n" (errors.map (fun e => "  - " ++ e.message))

/-- `validateAllSecrets`: a no-op on an empty registry; otherwise run the
collection loop and throw the aggregate error iff at least one requirement
failed. -/
def SecretManagerService.validateAllSecrets (s : ServiceState) (now : Int)
    (registry : List SecretRequirement) : Except SecretError Unit × ServiceState :=
  if registry.length = 0 then
    (.ok (), s)
  else
    let (errors, s') := collectValidationErrors now s registry
    if errors.length > 0 then
      (.error (.jsError (aggregateMessage errors)), s')
    else
      (.ok (), s')

/-- `onModuleInit`: run startup validation iff `validateOnStartup` is not
explicitly disabled. -/
def SecretManagerService.onModuleInit (s : ServiceState) (now : Int)
    (registry : List SecretRequirement) : Except SecretError Unit × ServiceState :=
  if validateOnStartupOn s.options then
    SecretManagerService.validateAllSecrets s now registry
  else
    (.ok (), s)

/-- The underscore character used as separator in derived tokens. -/
def usc : Char := Char.ofNat 95

/-- The defaulted backend component from which `getSecretToken` derives the
token: `options?.backend ?? 'default'`. -/
def effectiveBackend (options : Option InjectSecretOptions) : String :=
  (options.bind InjectSecretOptions.backend).getD "default"

/-- The defaulted version component from which `getSecretToken` derives the
token: `options?.version ?? 'latest'`. -/
def effectiveVersion (options : Option InjectSecretOptions) : String :=
  (options.bind InjectSecretOptions.version).getD "latest"

/-- The mutating operations on the in-memory backend store. -/
inductive MemOp where
  | setValue (name value version : String)
  | deleteValue (name : String) (version : Option String)
  | clearAll

/-- Apply one mutating operation to the in-memory backend store. -/
def applyMemOp (b : InMemorySecretBackend) : MemOp → InMemorySecretBackend
  | .setValue n v ver => b.set n v ver
  | .deleteValue n ver => (b.delete n ver).2
  | .clearAll => b.clear

/-- Store invariant of the in-memory backend: every name present in the
store maps to a non-empty version map. -/
def wellFormedStore (b : InMemorySecretBackend) : Prop :=
  ∀ p ∈ b.secrets, p.2 ≠ []

/-! Concrete fixtures used by witness theorems. -/

/-- A GCP client stub (the `gcp` backend is never exercised by the
fixtures). -/
def exGcpClient : String → Except GrpcError (Option String) :=
  fun _ => .error ⟨some 5, none⟩

/-- Options mirroring the unit-test module configuration with caching on. -/
def exOptions : SecretManagerModuleOptions :=
  ⟨"memory", some true, none, some false, none,
    some [("api-key", "test-api-key-value")], none⟩

/-- The service as constructed from `exOptions`. -/
def exService : ServiceState := SecretManagerService.create exOptions exGcpClient

/-- Options with caching disabled. -/
def exOptionsNoCache : SecretManagerModuleOptions :=
  ⟨"memory", some false, none, some false, none,
    some [("api-key", "initial-value")], none⟩

/-- The service as constructed from `exOptionsNoCache`. -/
def exServiceNoCache : ServiceState :=
  SecretManagerService.create exOptionsNoCache exGcpClient

/-- A service with validation enabled and an empty in-memory store. -/
def exMissingService : ServiceState :=
  SecretManagerService.create ⟨"memory", none, none, some true, none, none, none⟩
    exGcpClient

/-- The service state after the first `get('api-key')` on `exService`. -/
def exServiceAfterFirstGet : ServiceState :=
  (SecretManagerService.get exService 0 "api-key" none none).2

/-- The memory backend after `backend.set('api-key', 'modified-value')`. -/
def exModifiedBackend : Backend :=
  memoryAsBackend
    ((InMemorySecretBackend.init (some [("api-key", "test-api-key-value")])).set
      "api-key" "modified-value")

/-- `exServiceAfterFirstGet` with the memory backend's underlying value
changed. -/
def exServiceModified : ServiceState :=
  { exServiceAfterFirstGet with
      backends := mapSet exServiceAfterFirstGet.backends "memory" exModifiedBackend }

/-- A backend whose every fetch fails. -/
def failingBackend : Backend :=
  ⟨"memory", fun n v => .error (.secretNotFound n "memory" v)⟩

/-- A service whose TTL-configured cache holds one stale entry for
`api-key` and whose backend fails every fetch. -/
def staleCacheService : ServiceState :=
  { options := ⟨"memory", some true, some 10, some false, none, none, none⟩
    backends := [("memory", failingBackend)]
    cache := ⟨some 10, [(getCacheKey "memory" "api-key" (some "latest"), ⟨"old", 0⟩)]⟩ }

/-! Helper lemmas about the JS-`Map` model. -/

theorem mapGet_mapSet_self {α : Type} (m : List (String × α)) (k : String) (v : α) :
    mapGet (mapSet m k v) k = some v := by
  induction m with
  | nil => simp [mapSet, mapGet]
  | cons p rest ih =>
      obtain ⟨k', w⟩ := p
      by_cases h : k' = k
      · simp [mapSet, h, mapGet]
      · simp [mapSet, h, mapGet, ih]

theorem mapGet_mapSet_ne {α : Type} (m : List (String × α)) {k k' : String} (v : α)
    (h : k ≠ k') : mapGet (mapSet m k v) k' = mapGet m k' := by
  induction m with
  | nil => simp [mapSet, mapGet, h]
  | cons p rest ih =>
      obtain ⟨k₀, w⟩ := p
      by_cases h₀ : k₀ = k
      · simp [mapSet, h₀, mapGet, h]
      · simp [mapSet, h₀, mapGet, ih]

theorem mapSet_mapSet_self {α : Type} (m : List (String × α)) (k : String) (v w : α) :
    mapSet (mapSet m k v) k w = mapSet m k w := by
  induction m with
  | nil => simp [mapSet]
  | cons p rest ih =>
      obtain ⟨k₀, u⟩ := p
      by_cases h : k₀ = k
      · simp [mapSet, h]
      · simp [mapSet, h, ih]

theorem mapSet_ne_nil {α : Type} (m : List (String × α)) (k : String) (v : α) :
    mapSet m k v ≠ [] := by
  cases m with
  | nil => simp [mapSet]
  | cons p rest =>
      obtain ⟨k₀, w⟩ := p
      by_cases h : k₀ = k <;> simp [mapSet, h]

theorem mem_mapSet {α : Type} {m : List (String × α)} {k : String} {v : α}
    {q : String × α} : q ∈ mapSet m k v → q = (k, v) ∨ q ∈ m := by
  induction m with
  | nil => intro h; simpa [mapSet] using h
  | cons p rest ih =>
      obtain ⟨k₀, w⟩ := p
      intro h
      by_cases h₀ : k₀ = k
      · have he : mapSet ((k₀, w) :: rest) k v = (k, v) :: rest := by
          simp [mapSet, h₀]
        rw [he] at h
        exact (List.mem_cons.mp h).imp id (fun hq => List.mem_cons_of_mem _ hq)
      · have he : mapSet ((k₀, w) :: rest) k v = (k₀, w) :: mapSet rest k v := by
          simp [mapSet, h₀]
        rw [he] at h
        rcases List.mem_cons.mp h with h | h
        · exact Or.inr (h ▸ List.mem_cons_self _ _)
        · rcases ih h with h | h
          · exact Or.inl h
          · exact Or.inr (List.mem_cons_of_mem _ h)

theorem mem_mapDelete {α : Type} {m : List (String × α)} {k : String}
    {q : String × α} : q ∈ mapDelete m k → q ∈ m := by
  induction m with
  | nil => intro h; simp [mapDelete] at h
  | cons p rest ih =>
      obtain ⟨k₀, w⟩ := p
      intro h
      by_cases h₀ : k₀ = k
      · have he : mapDelete ((k₀, w) :: rest) k = rest := by
          simp [mapDelete, h₀]
        rw [he] at h
        exact List.mem_cons_of_mem _ h
      · have he : mapDelete ((k₀, w) :: rest) k = (k₀, w) :: mapDelete rest k := by
          simp [mapDelete, h₀]
        rw [he] at h
        rcases List.mem_cons.mp h with h | h
        · exact h ▸ List.mem_cons_self _ _
        · exact List.mem_cons_of_mem _ (ih h)

theorem mapGet_eq_none_of_not_mem_keys {α : Type} {m : List (String × α)} {k : String}
    (h : k ∉ m.map Prod.fst) : mapGet m k = none := by
  induction m with
  | nil => rfl
  | cons p rest ih =>
      obtain ⟨k₀, w⟩ := p
      simp only [List.map_cons, List.mem_cons] at h
      push_neg at h
      simp [mapGet, Ne.symm h.1, ih h.2]

theorem mapGet_mapDelete_self {α : Type} {m : List (String × α)} {k : String}
    (h : (m.map Prod.fst).Nodup) : mapGet (mapDelete m k) k = none := by
  induction m with
  | nil => rfl
  | cons p rest ih =>
      obtain ⟨k₀, w⟩ := p
      simp only [List.map_cons, List.nodup_cons] at h
      by_cases h₀ : k₀ = k
      · simp only [mapDelete, if_pos h₀]
        exact mapGet_eq_none_of_not_mem_keys (h₀ ▸ h.1)
      · simp [mapDelete, h₀, mapGet, ih h.2]

/-! Preservation lemmas for the in-memory store invariant. -/

theorem wellFormedStore_set (b : InMemorySecretBackend) (hw : wellFormedStore b)
    (n v ver : String) : wellFormedStore (b.set n v ver) := by
  unfold InMemorySecretBackend.set
  cases hn : mapGet b.secrets n with
  | none =>
      intro p hp
      rcases mem_mapSet hp with rfl | hp
      · simp
      · exact hw p hp
  | some versions =>
      intro p hp
      rcases mem_mapSet hp with rfl | hp
      · exact mapSet_ne_nil _ _ _
      · exact hw p hp

theorem wellFormedStore_delete (b : InMemorySecretBackend) (hw : wellFormedStore b)
    (n : String) (ver : Option String) : wellFormedStore (b.delete n ver).2 := by
  unfold InMemorySecretBackend.delete
  cases ver with
  | none =>
      intro p hp
      exact hw p (mem_mapDelete hp)
  | some v =>
      cases hn : mapGet b.secrets n with
      | none => exact hw
      | some versions =>
          by_cases hr : (mapDelete versions v).length = 0
          · simp only [hr, if_pos]
            intro p hp
            exact hw p (mem_mapDelete hp)
          · simp only [hr, if_neg, if_false]
            intro p hp
            rcases mem_mapSet hp with rfl | hp
            · intro hnil
              exact hr (congrArg List.length hnil)
            · exact hw p hp

theorem wellFormedStore_clear (b : InMemorySecretBackend) :
    wellFormedStore b.clear := by
  intro p hp
  simp [InMemorySecretBackend.clear] at hp

theorem wellFormedStore_foldl_set (l : List (String × String))
    (b : InMemorySecretBackend) (hw : wellFormedStore b) :
    wellFormedStore (l.foldl (fun b p => b.set p.1 p.2) b) := by
  induction l generalizing b with
  | nil => exact hw
  | cons p rest ih => exact ih _ (wellFormedStore_set b hw p.1 p.2 "latest")

theorem wellFormedStore_init (initialSecrets : Option (List (String × String))) :
    wellFormedStore (InMemorySecretBackend.init initialSecrets) := by
  unfold InMemorySecretBackend.init
  cases initialSecrets with
  | none => intro p hp; simp at hp
  | some pairs =>
      exact wellFormedStore_foldl_set pairs _ (by intro p hp; simp at hp)

theorem collectValidationErrors_length_le (now : Int)
    (registry : List SecretRequirement) :
    ∀ s : ServiceState,
      (collectValidationErrors now s registry).1.length ≤ registry.length := by
  induction registry with
  | nil => intro s; simp [collectValidationErrors]
  | cons r rest ih =>
      intro s
      unfold collectValidationErrors
      split
      · exact Nat.le_succ_of_le (ih _)
      · rename_i e s₁ heq
        rcases hcol : collectValidationErrors now s₁ rest with ⟨errors, s₂⟩
        have h2 := ih s₁
        rw [hcol] at h2
        simp only [hcol]
        simpa using Nat.succ_le_succ h2

theorem getInternal_miss_fst (s : ServiceState) (now : Int) (name rv : String)
    (b : Backend) (hc : cacheEnabledOn s.options = true)
    (hm : mapGet s.cache.entries (getCacheKey b.name name (some rv)) = none) :
    (SecretManagerService.getInternal s now name rv b).1 = b.get name (some rv) := by
  unfold SecretManagerService.getInternal SecretCache.get
  cases hbg : b.get name (some rv) with
  | ok v => simp [hc, hm, hbg]
  | error e => simp [hc, hm, hbg]

theorem getInternal_disabled_fst (s : ServiceState) (now : Int) (name rv : String)
    (b : Backend) (hc : cacheEnabledOn s.options = false) :
    (SecretManagerService.getInternal s now name rv b).1 = b.get name (some rv) := by
  unfold SecretManagerService.getInternal
  cases hbg : b.get name (some rv) with
  | ok v => simp [hc, hbg]
  | error e => simp [hc, hbg]

theorem get_resolved (s : ServiceState) (now : Int) (name : String)
    (version backendName : Option String) (b : Backend)
    (hb : SecretManagerService.getBackend s backendName = .ok b) :
    SecretManagerService.get s now name version backendName =
      SecretManagerService.getInternal s now name (version.getD "latest") b := by
  unfold SecretManagerService.get
  rw [hb]

/-! String lemmas for token injectivity. -/

theorem str_data_append (s t : String) : (s ++ t).data = s.data ++ t.data := by
  cases s
  cases t
  rfl

theorem str_ext {s t : String} (h : s.data = t.data) : s = t := by
  cases s
  cases t
  exact congrArg String.mk h

theorem append_usc_inj : ∀ (xs xs' ys ys' : List Char), usc ∉ xs → usc ∉ xs' →
    xs ++ usc :: ys = xs' ++ usc :: ys' → xs = xs' ∧ ys = ys' := by
  intro xs
  induction xs with
  | nil =>
      intro xs' ys ys' hx hx' h
      cases xs' with
      | nil => simpa using h
      | cons a t =>
          simp only [List.nil_append, List.cons_append, List.cons.injEq] at h
          exact absurd (by rw [h.1]; exact List.mem_cons_self a t) hx'
  | cons a t ih =>
      intro xs' ys ys' hx hx' h
      cases xs' with
      | nil =>
          simp only [List.cons_append, List.nil_append, List.cons.injEq] at h
          exact absurd (by rw [← h.1]; exact List.mem_cons_self a t) hx
      | cons a' t' =>
          simp only [List.cons_append, List.cons.injEq] at h
          obtain ⟨haa, hrest⟩ := h
          have hxt : usc ∉ t := fun hm => hx (List.mem_cons_of_mem _ hm)
          have hxt' : usc ∉ t' := fun hm => hx' (List.mem_cons_of_mem _ hm)
          obtain ⟨h₁, h₂⟩ := ih t' ys ys' hxt hxt' hrest
          exact ⟨by rw [haa, h₁], h₂⟩

theorem getSecretToken_data (name : String) (options : Option InjectSecretOptions) :
    (getSecretToken name options).data =
      "SECRET".data ++ usc :: ((effectiveBackend options).data ++
        usc :: (name.data ++ usc :: (effectiveVersion options).data)) := by
  have h₁ : ("SECRET_" : String).data = "SECRET".data ++ [usc] := by decide
  have h₂ : ("_" : String).data = [usc] := by decide
  unfold getSecretToken effectiveBackend effectiveVersion
  simp [str_data_append, h₁, h₂]
  decide

theorem getSecretToken_inj (n₁ n₂ : String) (o₁ o₂ : Option InjectSecretOptions)
    (hn₁ : usc ∉ n₁.data) (hn₂ : usc ∉ n₂.data)
    (hb₁ : usc ∉ (effectiveBackend o₁).data) (hb₂ : usc ∉ (effectiveBackend o₂).data)
    (hv₁ : usc ∉ (effectiveVersion o₁).data) (hv₂ : usc ∉ (effectiveVersion o₂).data)
    (h : getSecretToken n₁ o₁ = getSecretToken n₂ o₂) :
    n₁ = n₂ ∧ effectiveBackend o₁ = effectiveBackend o₂ ∧
      effectiveVersion o₁ = effectiveVersion o₂ := by
  have hd := congrArg String.data h
  rw [getSecretToken_data, getSecretToken_data] at hd
  have hd₂ := List.append_cancel_left hd
  have hd₃ := (List.cons.injEq _ _ _ _).mp hd₂
  obtain ⟨hb, hrest⟩ := append_usc_inj _ _ _ _ hb₁ hb₂ hd₃.2
  obtain ⟨hn, hv⟩ := append_usc_inj _ _ _ _ hn₁ hn₂ hrest
  exact ⟨str_ext hn, str_ext hb, str_ext hv⟩

/-! Claim theorems. -/

/-- C9: every in-memory store reachable by constructor preloading followed
by any sequence of `set`, `delete`, and `clear` operations maps each
present secret name to a non-empty version map (no dangling empty version
maps). -/
theorem c9_no_empty_version_maps (initialSecrets : Option (List (String × String)))
    (ops : List MemOp) :
    wellFormedStore (ops.foldl applyMemOp (InMemorySecretBackend.init initialSecrets)) := by
  have hstep : ∀ (ops : List MemOp) (b : InMemorySecretBackend),
      wellFormedStore b → wellFormedStore (ops.foldl applyMemOp b) := by
    intro ops
    induction ops with
    | nil => intro b hb; exact hb
    | cons op rest ih =>
        intro b hb
        refine ih _ ?_
        cases op with
        | setValue n v ver => exact wellFormedStore_set b hb n v ver
        | deleteValue n ver => exact wellFormedStore_delete b hb n ver
        | clearAll => exact wellFormedStore_clear b
  exact hstep ops _ (wellFormedStore_init initialSecrets)

/-- C9 witness: the invariant evaluated on a concrete operation sequence
that deletes the last version of a name. -/
theorem c9_no_empty_version_maps_witness :
    wellFormedStore
      (([MemOp.setValue "a" "v" "1", MemOp.deleteValue "a" (some "1")]).foldl
        applyMemOp (InMemorySecretBackend.init (some [("k", "v")]))) :=
  c9_no_empty_version_maps (some [("k", "v")])
    [MemOp.setValue "a" "v" "1", MemOp.deleteValue "a" (some "1")]

/-- C3: for every `(backend, name, value)`, `cache.set` followed by
`cache.get` at the same instant returns `value` (given a nonnegative TTL
when one is configured), and the result is identical whether the version
argument is omitted or explicitly `"latest"` in either call, because both
normalize to the composite key `backend:name:latest`. -/
theorem c3_cache_roundtrip (c : SecretCache) (backend name value : String)
    (v₁ v₂ : Option String) (t : Int)
    (h₁ : v₁ = none ∨ v₁ = some "latest") (h₂ : v₂ = none ∨ v₂ = some "latest")
    (httl : ∀ ttl, c.ttlMs = some ttl → 0 ≤ ttl) :
    ((c.set t backend name value v₁).get t backend name v₂).1 = some value ∧
    getCacheKey backend name none = getCacheKey backend name (some "latest") := by
  refine ⟨?_, rfl⟩
  have hkey : getCacheKey backend name v₂ = getCacheKey backend name v₁ := by
    rcases h₁ with rfl | rfl <;> rcases h₂ with rfl | rfl <;> rfl
  unfold SecretCache.get SecretCache.set
  simp only [hkey, mapGet_mapSet_self]
  cases hc : c.ttlMs with
  | none => rfl
  | some ttl =>
      have h0 := httl ttl hc
      simp [show ¬(ttl < 0) by omega]

/-- C3 witness: a concrete round trip through the composite key with
omitted and explicit `"latest"` versions. -/
theorem c3_cache_roundtrip_witness :
    (((SecretCache.mk (some 1000) []).set 0 "gcp" "api-key" "v" none).get 0
        "gcp" "api-key" (some "latest")).1 = some "v" ∧
    getCacheKey "gcp" "api-key" none = getCacheKey "gcp" "api-key" (some "latest") :=
  c3_cache_roundtrip ⟨some 1000, []⟩ "gcp" "api-key" "v" none (some "latest") 0
    (Or.inl rfl) (Or.inr rfl)
    (by intro ttl h; injection h with h; omega)

/-- C4: a freshly `set` entry is returned by `get` while the elapsed time
is strictly below the configured TTL, is absent once the elapsed time
strictly exceeds the TTL, and is returned at any elapsed time when no TTL
is configured. -/
theorem c4_cache_ttl_expiry (c : SecretCache) (backend name value : String)
    (version : Option String) (t₀ t₁ : Int) :
    (∀ ttl, c.ttlMs = some ttl → t₁ - t₀ < ttl →
      ((c.set t₀ backend name value version).get t₁ backend name version).1 =
        some value) ∧
    (∀ ttl, c.ttlMs = some ttl → t₁ - t₀ > ttl →
      ((c.set t₀ backend name value version).get t₁ backend name version).1 =
        none) ∧
    (c.ttlMs = none →
      ((c.set t₀ backend name value version).get t₁ backend name version).1 =
        some value) := by
  refine ⟨?_, ?_, ?_⟩
  · intro ttl hc hlt
    unfold SecretCache.get SecretCache.set
    simp only [mapGet_mapSet_self, hc]
    simp [show ¬(t₁ - t₀ > ttl) by omega]
  · intro ttl hc hgt
    unfold SecretCache.get SecretCache.set
    simp only [mapGet_mapSet_self, hc]
    simp [show t₁ - t₀ > ttl by omega]
  · intro hc
    unfold SecretCache.get SecretCache.set
    simp only [mapGet_mapSet_self, hc]

/-- C4 witness: with TTL 10, the value set at time 0 is visible at time 5
and absent at time 20. -/
theorem c4_cache_ttl_expiry_witness :
    (((SecretCache.mk (some 10) []).set 0 "m" "n" "v" none).get 5 "m" "n" none).1 =
      some "v" ∧
    (((SecretCache.mk (some 10) []).set 0 "m" "n" "v" none).get 20 "m" "n" none).1 =
      none :=
  ⟨(c4_cache_ttl_expiry ⟨some 10, []⟩ "m" "n" "v" none 0 5).1 10 rfl (by omega),
   (c4_cache_ttl_expiry ⟨some 10, []⟩ "m" "n" "v" none 0 20).2.1 10 rfl (by omega)⟩

/-- C5: the in-memory backend's `get` fails `SecretNotFoundError` iff the
name is entirely absent or the requested version (`"latest"` when omitted)
is absent under that name, and otherwise returns the stored value; in
particular a secret stored only under version `"1"` is not retrievable via
an omitted (`"latest"`) version. -/
theorem c5_memory_get_notfound (b : InMemorySecretBackend) (name : String)
    (version : Option String) :
    (b.get name version =
        .error (.secretNotFound name "memory" version) ↔
      mapGet b.secrets name = none ∨
        ∃ vs, mapGet b.secrets name = some vs ∧
          mapGet vs (version.getD "latest") = none) ∧
    (∀ vs value, mapGet b.secrets name = some vs →
      mapGet vs (version.getD "latest") = some value →
      b.get name version = .ok value) ∧
    (∀ value, mapGet b.secrets name = none →
      (b.set name value "1").get name none =
        .error (.secretNotFound name "memory" none)) := by
  refine ⟨⟨?_, ?_⟩, ?_, ?_⟩
  · intro h
    cases hn : mapGet b.secrets name with
    | none => exact Or.inl rfl
    | some vs =>
        cases hv : mapGet vs (version.getD "latest") with
        | none => exact Or.inr ⟨vs, rfl, hv⟩
        | some value =>
            simp [InMemorySecretBackend.get, hn, hv] at h
  · intro h
    rcases h with h | ⟨vs, h₁, h₂⟩
    · simp [InMemorySecretBackend.get, h]
    · simp [InMemorySecretBackend.get, h₁, h₂]
  · intro vs value h₁ h₂
    simp [InMemorySecretBackend.get, h₁, h₂]
  · intro value h
    simp [InMemorySecretBackend.set, h, InMemorySecretBackend.get,
      mapGet_mapSet_self, mapGet]

/-- C5 witness: a present `(name, latest)` pair is returned; a secret set
only under version `"1"` is not found via an omitted version. -/
theorem c5_memory_get_notfound_witness :
    (InMemorySecretBackend.mk [("api-key", [("latest", "x")])]).get "api-key" none =
      .ok "x" ∧
    ((InMemorySecretBackend.mk []).set "s" "val" "1").get "s" none =
      .error (.secretNotFound "s" "memory" none) :=
  ⟨(c5_memory_get_notfound ⟨[("api-key", [("latest", "x")])]⟩ "api-key" none).2.1
      [("latest", "x")] "x" rfl rfl,
   (c5_memory_get_notfound ⟨[]⟩ "s" none).2.2 "val" rfl⟩

/-- C7: a resolver `get` whose explicit backend name (or the configured
default when omitted) has no registered backend fails immediately with the
unknown-backend error listing the registered backend names, leaving the
state unchanged. -/
theorem c7_unknown_backend (s : ServiceState) (now : Int) (name : String)
    (version backendName : Option String)
    (h : mapGet s.backends (backendName.getD s.options.defaultBackend) = none) :
    SecretManagerService.get s now name version backendName =
      (.error (.jsError ("Unknown secret backend: " ++ apos ++
          backendName.getD s.options.defaultBackend ++ apos ++
          ". Available backends: " ++
          String.intercalate ", " (s.backends.map Prod.fst))), s) := by
  unfold SecretManagerService.get SecretManagerService.getBackend
  simp [h]

/-- C7 witness: requesting backend `unknown` on a service that registers
only `memory` fails with the unknown-backend error naming `memory`. -/
theorem c7_unknown_backend_witness :
    SecretManagerService.get exService 0 "api-key" none (some "unknown") =
      (.error (.jsError ("Unknown secret backend: " ++ apos ++ "unknown" ++ apos ++
          ". Available backends: " ++
          String.intercalate ", " (exService.backends.map Prod.fst))), exService) :=
  c7_unknown_backend exService 0 "api-key" none (some "unknown") rfl

/-- C1: startup validation runs iff `validateOnStartup` is not explicitly
disabled; it is a no-op success on an empty registry; it succeeds iff the
sequential scan over every requirement collects no failure; when at least
one requirement fails it throws a single aggregate error whose message
names the failure count and lists each failure's message; and a failing
requirement does not abort the scan — its error is collected and the
remaining requirements are still attempted. -/
theorem c1_startup_validation (s : ServiceState) (now : Int)
    (registry : List SecretRequirement) :
    (validateOnStartupOn s.options = false →
      SecretManagerService.onModuleInit s now registry = (.ok (), s)) ∧
    (validateOnStartupOn s.options = true →
      SecretManagerService.onModuleInit s now registry =
        SecretManagerService.validateAllSecrets s now registry) ∧
    (registry = [] →
      SecretManagerService.validateAllSecrets s now registry = (.ok (), s)) ∧
    ((SecretManagerService.validateAllSecrets s now registry).1 = .ok () ↔
      (collectValidationErrors now s registry).1 = []) ∧
    ((collectValidationErrors now s registry).1 ≠ [] →
      (SecretManagerService.validateAllSecrets s now registry).1 =
        .error (.jsError ("Failed to validate " ++
          toString (collectValidationErrors now s registry).1.length ++
          " secret(s):\n" ++
          String.intercalate "\n" ((collectValidationErrors now s registry).1.map
            (fun e => "  - " ++ e.message))))) ∧
    (∀ r rest e s₁,
      SecretManagerService.get s now r.name r.version r.backend = (.error e, s₁) →
      (collectValidationErrors now s (r :: rest)).1 =
        e :: (collectValidationErrors now s₁ rest).1) ∧
    (collectValidationErrors now s registry).1.length ≤ registry.length := by
  refine ⟨?_, ?_, ?_, ?_, ?_, ?_, ?_⟩
  · intro h
    simp [SecretManagerService.onModuleInit, h]
  · intro h
    simp [SecretManagerService.onModuleInit, h]
  · intro h
    subst h
    simp [SecretManagerService.validateAllSecrets]
  · by_cases hreg : registry.length = 0
    · have hnil : registry = [] := List.length_eq_zero.mp hreg
      subst hnil
      simp [SecretManagerService.validateAllSecrets, collectValidationErrors]
    · unfold SecretManagerService.validateAllSecrets
      rcases hcol : collectValidationErrors now s registry with ⟨errors, s₂⟩
      simp only [if_neg hreg, hcol]
      by_cases herr : errors.length > 0
      · have hne : errors ≠ [] := by
          intro h
          subst h
          simp at herr
        simp [herr, hne]
      · have hnil : errors = [] :=
          List.length_eq_zero.mp (Nat.eq_zero_of_not_pos herr)
        simp [herr, hnil]
  · intro hne
    have hreg : registry.length ≠ 0 := by
      intro h0
      have hnil : registry = [] := List.length_eq_zero.mp h0
      subst hnil
      simp [collectValidationErrors] at hne
    unfold SecretManagerService.validateAllSecrets
    rcases hcol : collectValidationErrors now s registry with ⟨errors, s₂⟩
    rw [hcol] at hne
    simp only [if_neg hreg, hcol]
    have herr : errors.length > 0 := by
      cases errors with
      | nil => simp at hne
      | cons a t => simp
    simp [herr, aggregateMessage]
  · intro r rest e s₁ hg
    have hstep : collectValidationErrors now s (r :: rest) =
        (e :: (collectValidationErrors now s₁ rest).1,
          (collectValidationErrors now s₁ rest).2) := by
      conv_lhs => rw [collectValidationErrors]
      rw [hg]
    rw [hstep]
  · exact collectValidationErrors_length_le now registry s

/-- C1 witness: on a concrete service with validation enabled, an empty
registry validates as a no-op, and a single missing requirement makes
startup fail with the aggregate error for that one failure. -/
theorem c1_startup_validation_witness :
    SecretManagerService.onModuleInit exMissingService 0 [] =
      (.ok (), exMissingService) ∧
    (SecretManagerService.onModuleInit exMissingService 0
        [⟨"missing-secret", none, none, getSecretToken "missing-secret" none⟩]).1 =
      .error (.jsError (aggregateMessage
        [SecretError.secretNotFound "missing-secret" "memory" (some "latest")])) := by
  constructor
  · exact ((c1_startup_validation exMissingService 0 []).2.1 rfl).trans
      ((c1_startup_validation exMissingService 0 []).2.2.1 rfl)
  · have h := c1_startup_validation exMissingService 0
      [⟨"missing-secret", none, none, getSecretToken "missing-secret" none⟩]
    have h2 := (congrArg Prod.fst (h.2.1 rfl)).trans (h.2.2.2.2.1 (by decide))
    have hc : (collectValidationErrors 0 exMissingService
        [⟨"missing-secret", none, none, getSecretToken "missing-secret" none⟩]).1 =
        [SecretError.secretNotFound "missing-secret" "memory" (some "latest")] := by
      decide
    rw [hc] at h2
    exact h2

/-- C2: with caching enabled, a first `get` that misses the cache fetches
from the backend and stores the value under the composite key; a `get`
that hits an unexpired entry returns the cached value without regard to
the backend's current state; after `clearCache` the next `get` returns the
backend's fresh value; with caching disabled every `get` returns the
backend's current result and leaves the state unchanged. -/
theorem c2_cache_memoization (s : ServiceState) (now : Int) (name : String)
    (version backendName : Option String) (b : Backend) :
    (∀ value, cacheEnabledOn s.options = true →
      SecretManagerService.getBackend s backendName = .ok b →
      mapGet s.cache.entries
        (getCacheKey b.name name (some (version.getD "latest"))) = none →
      b.get name (some (version.getD "latest")) = .ok value →
      SecretManagerService.get s now name version backendName =
        (.ok value,
          { s with cache :=
              s.cache.set now b.name name value (some (version.getD "latest")) })) ∧
    (∀ entry, cacheEnabledOn s.options = true →
      SecretManagerService.getBackend s backendName = .ok b →
      mapGet s.cache.entries
        (getCacheKey b.name name (some (version.getD "latest"))) = some entry →
      (∀ ttl, s.cache.ttlMs = some ttl → ¬ now - entry.cachedAt > ttl) →
      SecretManagerService.get s now name version backendName =
        (.ok entry.value, s)) ∧
    (∀ value, cacheEnabledOn s.options = true →
      SecretManagerService.getBackend s backendName = .ok b →
      b.get name (some (version.getD "latest")) = .ok value →
      (SecretManagerService.get (SecretManagerService.clearCache s) now name
          version backendName).1 = .ok value) ∧
    (cacheEnabledOn s.options = false →
      SecretManagerService.getBackend s backendName = .ok b →
      SecretManagerService.get s now name version backendName =
        (b.get name (some (version.getD "latest")), s)) := by
  refine ⟨?_, ?_, ?_, ?_⟩
  · intro value hc hb hm hget
    unfold SecretManagerService.get
    rw [hb]
    unfold SecretManagerService.getInternal SecretCache.get
    simp [hc, hm, hget]
  · intro entry hc hb hm httl
    unfold SecretManagerService.get
    rw [hb]
    unfold SecretManagerService.getInternal SecretCache.get
    cases ht : s.cache.ttlMs with
    | none => simp [hc, hm, ht]
    | some ttl =>
        have hnot := httl ttl ht
        simp [hc, hm, ht, if_neg hnot]
  · intro value hc hb hget
    have hb' : SecretManagerService.getBackend
        (SecretManagerService.clearCache s) backendName = .ok b := hb
    unfold SecretManagerService.get
    rw [hb']
    unfold SecretManagerService.getInternal SecretCache.get
    simp [SecretManagerService.clearCache, SecretCache.clear, hc, hget, mapGet]
  · intro hc hb
    unfold SecretManagerService.get
    rw [hb]
    unfold SecretManagerService.getInternal
    cases hbg : b.get name (some (version.getD "latest")) with
    | ok v => simp [hc, hbg]
    | error e => simp [hc, hbg]

/-- C2 witness: the unit-test scenario on a concrete service — the first
call populates the cache, a second call after the backend value changed
still returns the first value, after `clearCache` the fresh value is
returned, and with caching disabled the fresh value is always returned. -/
theorem c2_cache_memoization_witness :
    SecretManagerService.get exService 0 "api-key" none none =
      (.ok "test-api-key-value",
        { exService with cache := exService.cache.set 0 "memory" "api-key" "test-api-key-value" (some "latest") }) ∧
    SecretManagerService.get exServiceModified 1 "api-key" none none =
      (.ok "test-api-key-value", exServiceModified) ∧
    (SecretManagerService.get
        (SecretManagerService.clearCache exServiceModified) 2 "api-key" none none).1 =
      .ok "modified-value" ∧
    SecretManagerService.get exServiceNoCache 0 "api-key" none none =
      (.ok "initial-value", exServiceNoCache) := by
  refine ⟨?_, ?_, ?_, ?_⟩
  · exact (c2_cache_memoization exService 0 "api-key" none none
      (memoryAsBackend (InMemorySecretBackend.init
        (some [("api-key", "test-api-key-value")])))).1 "test-api-key-value"
      rfl rfl rfl rfl
  · exact (c2_cache_memoization exServiceModified 1 "api-key" none none
      exModifiedBackend).2.1 ⟨"test-api-key-value", 0⟩ rfl rfl rfl
      (by intro ttl h; cases h)
  · exact (c2_cache_memoization exServiceModified 2 "api-key" none none
      exModifiedBackend).2.2.1 "modified-value" rfl rfl rfl
  · exact (c2_cache_memoization exServiceNoCache 0 "api-key" none none
      (memoryAsBackend (InMemorySecretBackend.init
        (some [("api-key", "initial-value")])))).2.2.2 rfl rfl

/-- C8: the resolver's `getLatest` delegates exactly to
`get(name, "latest", backendName)`, and each backend's `getLatest`
delegates exactly to that backend's `get(name, "latest")`. -/
theorem c8_getLatest_delegates :
    (∀ (s : ServiceState) (now : Int) (name : String) (backendName : Option String),
      SecretManagerService.getLatest s now name backendName =
        SecretManagerService.get s now name (some "latest") backendName) ∧
    (∀ (b : InMemorySecretBackend) (name : String),
      b.getLatest name = b.get name (some "latest")) ∧
    (∀ (projectId : String) (client : String → Except GrpcError (Option String))
        (name : String),
      GcpSecretManagerBackend.getLatest projectId client name =
        GcpSecretManagerBackend.get projectId client name (some "latest")) :=
  ⟨fun _ _ _ _ => rfl, fun _ _ => rfl, fun _ _ _ => rfl⟩

/-- C10 counterexample: on a service whose TTL-configured cache holds an
expired entry for the requested key and whose backend fails, the failing
`get` does change the cache — the expired entry is lazily deleted — so the
cache is not left unchanged on every failed `get`. -/
theorem c10_counterexample :
    (SecretManagerService.get staleCacheService 20 "api-key" none none).1 =
      .error (.secretNotFound "api-key" "memory" (some "latest")) ∧
    (SecretManagerService.get staleCacheService 20 "api-key" none none).2.cache.entries ≠
      staleCacheService.cache.entries := by
  refine ⟨rfl, by decide⟩

/-- C10 (amended): when a resolver `get` fails, no entry is stored or
updated for the requested key — the resulting cache equals the original
except possibly for the lazy deletion of the requested key's expired
entry; with caching enabled the failed key holds no entry afterwards, and
a subsequent identical `get` returns exactly the backend's fresh result. -/
theorem c10_failed_get_no_cache_entry (s : ServiceState) (now : Int) (name : String)
    (version backendName : Option String) (e : SecretError) (s' : ServiceState)
    (hkeys : (s.cache.entries.map Prod.fst).Nodup)
    (h : SecretManagerService.get s now name version backendName = (.error e, s')) :
    (∀ e₀, SecretManagerService.getBackend s backendName = .error e₀ → s' = s) ∧
    (∀ b, SecretManagerService.getBackend s backendName = .ok b →
      (s'.cache.entries = s.cache.entries ∨
        s'.cache.entries = mapDelete s.cache.entries
          (getCacheKey b.name name (some (version.getD "latest")))) ∧
      (cacheEnabledOn s.options = true →
        mapGet s'.cache.entries
          (getCacheKey b.name name (some (version.getD "latest"))) = none) ∧
      (∀ now₂, (SecretManagerService.get s' now₂ name version backendName).1 =
        b.get name (some (version.getD "latest")))) := by
  constructor
  · intro e₀ hb
    unfold SecretManagerService.get at h
    rw [hb] at h
    simp only [Prod.mk.injEq] at h
    exact h.2.symm
  · intro b hb
    rw [get_resolved s now name version backendName b hb] at h
    by_cases hc : cacheEnabledOn s.options
    · cases hm : mapGet s.cache.entries
          (getCacheKey b.name name (some (version.getD "latest"))) with
      | none =>
          cases hbg : b.get name (some (version.getD "latest")) with
          | ok v =>
              exfalso
              unfold SecretManagerService.getInternal SecretCache.get at h
              simp [hc, hm, hbg, Prod.mk.injEq] at h
          | error e' =>
              unfold SecretManagerService.getInternal SecretCache.get at h
              simp only [hc, if_true, hm, hbg, Prod.mk.injEq] at h
              obtain ⟨he, hs⟩ := h
              subst hs
              refine ⟨Or.inl rfl, fun _ => hm, fun now₂ => ?_⟩
              rw [get_resolved _ now₂ name version backendName b hb]
              exact (getInternal_miss_fst _ now₂ name
                (version.getD "latest") b hc hm).trans hbg
      | some entry =>
          cases ht : s.cache.ttlMs with
          | none =>
              exfalso
              unfold SecretManagerService.getInternal SecretCache.get at h
              simp [hc, hm, ht, Prod.mk.injEq] at h
          | some ttl =>
              by_cases hexp : now - entry.cachedAt > ttl
              · cases hbg : b.get name (some (version.getD "latest")) with
                | ok v =>
                    exfalso
                    unfold SecretManagerService.getInternal SecretCache.get at h
                    simp [hc, hm, ht, hexp, hbg, Prod.mk.injEq] at h
                | error e' =>
                    unfold SecretManagerService.getInternal SecretCache.get at h
                    simp only [hc, if_true, hm, ht, hexp, if_pos, hbg,
                      Prod.mk.injEq] at h
                    obtain ⟨he, hs⟩ := h
                    subst hs
                    have hdel : mapGet
                        (mapDelete s.cache.entries
                          (getCacheKey b.name name (some (version.getD "latest"))))
                        (getCacheKey b.name name (some (version.getD "latest"))) = none :=
                      mapGet_mapDelete_self hkeys
                    refine ⟨Or.inr rfl, fun _ => hdel, fun now₂ => ?_⟩
                    have hb' : SecretManagerService.getBackend
                        ⟨s.options, s.backends, ⟨some ttl,
                          mapDelete s.cache.entries
                            (getCacheKey b.name name (some (version.getD "latest")))⟩⟩
                        backendName = .ok b := hb
                    rw [get_resolved _ now₂ name version backendName b hb']
                    exact (getInternal_miss_fst
                      ⟨s.options, s.backends, ⟨some ttl,
                        mapDelete s.cache.entries
                          (getCacheKey b.name name (some (version.getD "latest")))⟩⟩
                      now₂ name (version.getD "latest") b hc hdel).trans hbg
              · exfalso
                unfold SecretManagerService.getInternal SecretCache.get at h
                simp [hc, hm, ht, hexp, Prod.mk.injEq] at h
    · have hcf : cacheEnabledOn s.options = false := by
        cases hcv : cacheEnabledOn s.options with
        | false => rfl
        | true => exact absurd hcv hc
      cases hbg : b.get name (some (version.getD "latest")) with
      | ok v =>
          exfalso
          unfold SecretManagerService.getInternal at h
          simp [hcf, hbg, Prod.mk.injEq] at h
      | error e' =>
          unfold SecretManagerService.getInternal at h
          simp only [hcf, if_false, Bool.false_eq_true, hbg, Prod.mk.injEq] at h
          obtain ⟨he, hs⟩ := h
          subst hs
          refine ⟨Or.inl rfl, fun hct => absurd hct hc, fun now₂ => ?_⟩
          rw [get_resolved _ now₂ name version backendName b hb]
          exact (getInternal_disabled_fst _ now₂ name
            (version.getD "latest") b hcf).trans hbg

/-- C10 witness: after the failing `get` on the stale-cache service, the
requested key holds no cache entry. -/
theorem c10_failed_get_no_cache_entry_witness :
    mapGet
      (SecretManagerService.get staleCacheService 20 "api-key" none none).2.cache.entries
      (getCacheKey "memory" "api-key" (some "latest")) = none := by
  have h := c10_failed_get_no_cache_entry staleCacheService 20 "api-key" none none
    (.secretNotFound "api-key" "memory" (some "latest"))
    (SecretManagerService.get staleCacheService 20 "api-key" none none).2
    (by decide) rfl
  exact (h.2 failingBackend rfl).2.1 rfl

/-- C6 counterexample: the token joins its components with `_` without
escaping, so the two distinct tuples (name `b_c`, backend `a`) and (name
`c`, backend `a_b`) collide to the same token, and registering both leaves
one registry entry rather than two. -/
theorem c6_counterexample :
    getSecretToken "b_c" (some ⟨none, some "a"⟩) =
      getSecretToken "c" (some ⟨none, some "a_b"⟩) ∧
    ¬("b_c" = "c" ∧
      (some (⟨none, some "a"⟩ : InjectSecretOptions)) = some ⟨none, some "a_b"⟩) ∧
    ((((SecretRegistry.mk []).register "b_c" (some ⟨none, some "a"⟩)).2.register
        "c" (some ⟨none, some "a_b"⟩)).2).size = 1 := by
  refine ⟨rfl, by decide, by decide⟩

/-- C6 (amended): the token is deterministic in the defaulted tuple
`(backend ?? "default", name, version ?? "latest")`; registering the same
tuple repeatedly leaves exactly one entry, keyed by the token, with the
last registration overwriting; and two distinct tuples yield two distinct
tokens — hence two registry entries — provided the name and the defaulted
backend and version contain no underscore (with underscores, distinct
tuples can collide to a single token and entry). -/
theorem c6_token_registry (reg : SecretRegistry) (n₁ n₂ : String)
    (o₁ o₂ : Option InjectSecretOptions) :
    (n₁ = n₂ → effectiveBackend o₁ = effectiveBackend o₂ →
      effectiveVersion o₁ = effectiveVersion o₂ →
      getSecretToken n₁ o₁ = getSecretToken n₂ o₂) ∧
    (((reg.register n₁ o₁).2.register n₁ o₁).2 = (reg.register n₁ o₁).2) ∧
    (((SecretRegistry.mk []).register n₁ o₁).2.size = 1) ∧
    (mapGet (reg.register n₁ o₁).2.secrets (getSecretToken n₁ o₁) =
      some ⟨n₁, o₁.bind InjectSecretOptions.version,
        o₁.bind InjectSecretOptions.backend, getSecretToken n₁ o₁⟩) ∧
    (usc ∉ n₁.data → usc ∉ n₂.data →
     usc ∉ (effectiveBackend o₁).data → usc ∉ (effectiveBackend o₂).data →
     usc ∉ (effectiveVersion o₁).data → usc ∉ (effectiveVersion o₂).data →
     ¬(n₁ = n₂ ∧ effectiveBackend o₁ = effectiveBackend o₂ ∧
        effectiveVersion o₁ = effectiveVersion o₂) →
     getSecretToken n₁ o₁ ≠ getSecretToken n₂ o₂ ∧
       (((SecretRegistry.mk []).register n₁ o₁).2.register n₂ o₂).2.size = 2) := by
  refine ⟨?_, ?_, ?_, ?_, ?_⟩
  · intro hn hb hv
    unfold effectiveBackend at hb
    unfold effectiveVersion at hv
    unfold getSecretToken
    rw [hn, hb, hv]
  · simp [SecretRegistry.register, mapSet_mapSet_self]
  · rfl
  · simp [SecretRegistry.register, mapGet_mapSet_self]
  · intro hn₁ hn₂ hb₁ hb₂ hv₁ hv₂ hne
    have ht : getSecretToken n₁ o₁ ≠ getSecretToken n₂ o₂ := by
      intro h
      exact hne (getSecretToken_inj n₁ n₂ o₁ o₂ hn₁ hn₂ hb₁ hb₂ hv₁ hv₂ h)
    refine ⟨ht, ?_⟩
    simp [SecretRegistry.register, SecretRegistry.size, mapSet, ht]

/-- C6 witness: two underscore-free tuples yield distinct tokens and two
registry entries; re-registering one tuple keeps a single entry. -/
theorem c6_token_registry_witness :
    (getSecretToken "a" none ≠ getSecretToken "b" none ∧
      (((SecretRegistry.mk []).register "a" none).2.register "b" none).2.size = 2) ∧
    (((SecretRegistry.mk []).register "a" none).2.register "a" none).2 =
      ((SecretRegistry.mk []).register "a" none).2 :=
  ⟨(c6_token_registry ⟨[]⟩ "a" "b" none none).2.2.2.2 (by decide) (by decide)
      (by decide) (by decide) (by decide) (by decide) (by decide),
   (c6_token_registry ⟨[]⟩ "a" "b" none none).2.1⟩

end SecretManager
